import Mathlib

/-!
Shallow embedding of the nlp-postgres query pipeline (TypeScript sources)
and proofs about it.

Embedded components:
* `src/lib/db/executor.ts` — `validateQuery`, `executeQuery` (SQL text
  transformation, validation gate, error mapping);
* `src/lib/llm/sql-generator.ts` — `generateSQL` provider orchestration;
* `src/lib/llm/prompts.ts` — `buildUserPrompt`, `parseLLMResponse`
  (including a model of `JSON.parse`);
* `src/lib/db/schema.ts` — `introspectSchema` cache behaviour.

JavaScript strings are modelled as Lean `String` restricted to their
ASCII behaviour (the sources only ever match ASCII characters); regular
expressions are hand-translated into explicit scanning functions.
-/

namespace NlpPostgres

/-- JS whitespace as used by `trim()` and the `\s` regex class,
restricted to its ASCII members: space, tab, LF, VT, FF, CR. -/
def isJsSpace (c : Char) : Bool :=
  c = ' ' || c = '\t' || c = '\n' || c = '\x0b' || c = '\x0c' || c = '\r'

/-- JS regex word character `\w` = `[A-Za-z0-9_]`. -/
def isWordChar (c : Char) : Bool :=
  c.isAlpha || c.isDigit || c = '_'

/-- Strip leading and trailing JS whitespace from a character list
(the list-level core of `String.prototype.trim`). -/
def trimL (cs : List Char) : List Char :=
  ((cs.dropWhile isJsSpace).reverse.dropWhile isJsSpace).reverse

/-- `s.trim()` of JavaScript. -/
def jsTrim (s : String) : String :=
  String.mk (trimL s.data)

/-- `s.toLowerCase()` of JavaScript, on ASCII. -/
def jsToLower (s : String) : String :=
  String.mk (s.data.map Char.toLower)

/-- Does `pat` occur as a prefix of `cs`? (list-level `startsWith`). -/
def startsWithL : List Char → List Char → Bool
  | [], _ => true
  | _ :: _, [] => false
  | p :: ps, c :: cs => p = c && startsWithL ps cs

/-- `s.startsWith(pat)` of JavaScript. -/
def jsStartsWith (s pat : String) : Bool :=
  startsWithL pat.data s.data

/-- `s.endsWith(pat)` of JavaScript. -/
def jsEndsWith (s pat : String) : Bool :=
  startsWithL pat.data.reverse s.data.reverse

/-- Match a fixed keyword followed by one JS-whitespace character
(the regex fragment `kw\s` at the current position). -/
def matchThenSpace : List Char → List Char → Bool
  | [], c :: _ => isJsSpace c
  | [], [] => false
  | _ :: _, [] => false
  | k :: ks, c :: cs => k = c && matchThenSpace ks cs

/-- The eleven keywords of the anchored forbidden patterns
`/^\s*kw\s+/i` in `validateQuery`. -/
def leadingKeywords : List String :=
  ["insert", "update", "delete", "drop", "truncate", "alter",
   "create", "grant", "revoke", "exec", "execute"]

/-- The nine keywords of the stacked-statement pattern
`/;\s*(insert|update|delete|drop|truncate|alter|create|grant|revoke)\s+/i`
in `validateQuery` (note: `exec` and `execute` are absent). -/
def stackedKeywords : List String :=
  ["insert", "update", "delete", "drop", "truncate", "alter",
   "create", "grant", "revoke"]

/-- Does some keyword of `stackedKeywords`, followed by a whitespace
character, occur at the head of `cs` (after the `\s*` skip)? -/
def stackedKeywordHere (cs : List Char) : Bool :=
  stackedKeywords.any fun kw => matchThenSpace kw.data (cs.dropWhile isJsSpace)

/-- Unanchored test of the stacked-statement regex
`/;\s*(insert|…|revoke)\s+/i`: scan for a `;` whose continuation
matches `\s*kw\s`. -/
def stackedHit : List Char → Bool
  | [] => false
  | c :: cs => (if c = ';' then stackedKeywordHere cs else false) || stackedHit cs

/-- Test of the anchored patterns `/^\s*kw\s+/i` for the eleven leading
keywords, applied to the normalized SQL. -/
def leadingHit (cs : List Char) : Bool :=
  leadingKeywords.any fun kw => matchThenSpace kw.data (cs.dropWhile isJsSpace)

/-- Result shape of `validateQuery`: `{ valid: boolean; error?: string }`. -/
structure ValidationResult where
  valid : Bool
  error : Option String
deriving DecidableEq

/-- `validateQuery` from `src/lib/db/executor.ts`: normalize by
trim + lowercase, reject on any forbidden pattern, then require a
`select`/`with` start. -/
def validateQuery (sql : String) : ValidationResult :=
  let normalizedSql := jsToLower (jsTrim sql)
  if leadingHit normalizedSql.data || stackedHit normalizedSql.data then
    { valid := false
      error := some "Only SELECT queries are allowed. Data modification operations are disabled." }
  else if !(jsStartsWith normalizedSql "select") && !(jsStartsWith normalizedSql "with") then
    { valid := false
      error := some "Query must start with SELECT or WITH (for CTEs)." }
  else
    { valid := true, error := none }

/-! ### Query executor (`executeQuery` in `src/lib/db/executor.ts`) -/

/-- After `LIMIT`, match the regex fragment `\s+\d+`: at least one
whitespace character, then (skipping further whitespace) a digit. -/
def spacesThenDigit : List Char → Bool
  | [] => false
  | c :: cs => if isJsSpace c then spacesThenDigit cs else c.isDigit

/-- Match the regex fragment `LIMIT\s+\d+` (case-insensitive) at the
head of `cs`; the word boundary `\b` is checked by the caller. -/
def limitHere (cs : List Char) : Bool :=
  match cs with
  | c1 :: c2 :: c3 :: c4 :: c5 :: rest =>
    [c1.toLower, c2.toLower, c3.toLower, c4.toLower, c5.toLower] = "limit".data &&
      (match rest with
       | [] => false
       | c :: cs' => isJsSpace c && spacesThenDigit cs')
  | _ => false

/-- Scan for the unanchored regex `/\bLIMIT\s+\d+/i`; `prevIsWord`
records whether the previous character was a `\w` character (for the
word boundary before `LIMIT`). -/
def limitScan : Bool → List Char → Bool
  | _, [] => false
  | prevIsWord, c :: cs =>
    (!prevIsWord && limitHere (c :: cs)) || limitScan (isWordChar c) cs

/-- `/\bLIMIT\s+\d+/i.test(s)`, the executor's check for an existing
`LIMIT` clause. -/
def hasLimitClause (s : String) : Bool :=
  limitScan false s.data

/-- `s.replace(/;\s*$/, '')` applied to an already-trimmed string:
drop one final semicolon if present (a trimmed string has no trailing
whitespace, so the `\s*` part of the pattern is vacuous). -/
def stripTrailingSemi (s : String) : String :=
  if jsEndsWith s ";" then String.mk (s.data.take (s.data.length - 1)) else s

/-- The SQL text actually handed to the connection pool by
`executeQuery` (its local variable `safeSql`): trim, and if no `LIMIT`
clause is detected, drop a trailing semicolon and append the configured
row cap. -/
def safeSqlText (maxResultRows : Nat) (sql : String) : String :=
  let trimmed := jsTrim sql
  if hasLimitClause trimmed then trimmed
  else stripTrailingSemi trimmed ++ " LIMIT " ++ toString maxResultRows

/-- A field descriptor as returned by the `pg` driver. -/
structure FieldDef where
  name : String
  dataTypeID : Nat
deriving DecidableEq

/-- The slice of a `pg` query result that `executeQuery` reads. -/
structure PgResult (Row : Type) where
  rows : List Row
  rowCount : Option Nat
  fields : List FieldDef

/-- The `QueryResult` shape of `src/lib/db/types.ts`. -/
structure QueryResult (Row : Type) where
  rows : List Row
  rowCount : Nat
  fields : List FieldDef
  executionTime : Nat

/-- Substring test (JS `String.prototype.includes`). -/
def containsSub (s pat : String) : Bool :=
  go s.data
where
  go : List Char → Bool
    | [] => startsWithL pat.data []
    | c :: cs => startsWithL pat.data (c :: cs) || go cs

/-- `executeQuery` from `src/lib/db/executor.ts`, with the database
modelled as an oracle `db` mapping the submitted text and parameters to
either a driver error message or a `pg` result, and the measured wall
time passed in as `elapsedMs`.  Returns the outcome together with the
list of SQL texts actually submitted to the pool (empty when validation
rejects the query). -/
def executeQuery {Row Param : Type}
    (queryTimeout maxResultRows : Nat)
    (db : String → List Param → Except String (PgResult Row))
    (elapsedMs : Nat)
    (sql : String) (params : List Param) :
    Except String (QueryResult Row) × List String :=
  let validation := validateQuery sql
  if validation.valid = false then
    (.error (validation.error.getD ""), [])
  else
    let safeSql := safeSqlText maxResultRows sql
    match db safeSql params with
    | .ok result =>
      (.ok { rows := result.rows
             rowCount := result.rowCount.getD 0
             fields := result.fields
             executionTime := elapsedMs }, [safeSql])
    | .error e =>
      if containsSub e "statement timeout" then
        (.error ("Query timed out after " ++ toString queryTimeout ++
          "ms. Consider adding filters or LIMIT clause."), [safeSql])
      else
        (.error ("Query execution error: " ++ e), [safeSql])

/-! ### Provider orchestration (`generateSQL` in `src/lib/llm/sql-generator.ts`) -/

/-- The two LLM providers of `src/lib/llm/types.ts`. -/
inductive LLMProvider
  | gemini
  | claude
deriving DecidableEq

/-- The provider identifier interpolated into log and error messages. -/
def providerName : LLMProvider → String
  | .gemini => "gemini"
  | .claude => "claude"

/-- `primary === 'gemini' ? 'claude' : 'gemini'`. -/
def fallbackOf (primary : LLMProvider) : LLMProvider :=
  if primary = .gemini then .claude else .gemini

/-- The aggregated error message thrown when both providers fail
(the template literal in `generateSQL`, with the errors' messages). -/
def compositeErrorMessage (primary fallback : LLMProvider) (e1 e2 : String) : String :=
  "Failed to generate SQL. Primary (" ++ providerName primary ++ "): " ++ e1 ++
    ". Fallback (" ++ providerName fallback ++ "): " ++ e2

/-- `generateSQL` from `src/lib/llm/sql-generator.ts`.  The outcome of
invoking each provider is passed in (`geminiCall`, `claudeCall`), the
`LLM_PROVIDER` environment default as `envProvider`, and the explicit
preference as `preferredProvider`.  Returns the overall outcome
together with the list of providers invoked, in invocation order. -/
def generateSQL {R : Type} (geminiCall claudeCall : Except String R)
    (envProvider preferredProvider : Option LLMProvider) :
    Except String R × List LLMProvider :=
  let defaultProvider := envProvider.getD .gemini
  let primary := preferredProvider.getD defaultProvider
  let fallback := fallbackOf primary
  let call := fun p => if p = LLMProvider.gemini then geminiCall else claudeCall
  match call primary with
  | .ok r => (.ok r, [primary])
  | .error e1 =>
    match call fallback with
    | .ok r => (.ok r, [primary, fallback])
    | .error e2 =>
      (.error (compositeErrorMessage primary fallback e1 e2), [primary, fallback])

/-! ### Prompt builder (`buildUserPrompt` in `src/lib/llm/prompts.ts`) -/

/-- One history entry as interpolated by the loop body of
`buildUserPrompt` (a `{ nl, sql }` pair). -/
def renderPreviousQuery (q : String × String) : String :=
  "User: " ++ q.1 ++ "\nSQL: " ++ q.2 ++ "\n\n"

/-- `buildUserPrompt` from `src/lib/llm/prompts.ts`: schema context,
optional previous-queries block over `slice(-3)` of the history, the
user question, and the fixed closing instruction. -/
def buildUserPrompt (naturalLanguageQuery schemaContext : String)
    (previousQueries : Option (List (String × String))) : String :=
  let prompt := schemaContext ++ "\n\n"
  let prompt :=
    match previousQueries with
    | some qs =>
      if qs.length > 0 then
        prompt ++ "PREVIOUS QUERIES FOR CONTEXT:\n" ++
          (qs.drop (qs.length - 3)).foldl (fun acc q => acc ++ renderPreviousQuery q) ""
      else prompt
    | none => prompt
  prompt ++ ("USER QUESTION: " ++ naturalLanguageQuery ++ "\n\n") ++
    "Generate the SQL query:"

/-! ### JSON values and `JSON.parse` (used by `parseLLMResponse`)

`parseLLMResponse` in `src/lib/llm/prompts.ts` calls the platform
function `JSON.parse`, modelled here by a recursive-descent parser over
the JSON grammar (RFC 8259, which `JSON.parse` implements): values are
objects, arrays, strings, numbers, `true`, `false`, `null`; only space,
tab, LF and CR are insignificant whitespace; strings support the eight
escapes and `\uXXXX`; numbers forbid leading zeros and require digits
around `.` and after an exponent marker; input must be a single value
followed only by whitespace.  Numeric literals are kept as their raw
text (the code never does arithmetic on them; only JS truthiness is
needed, i.e. whether the mantissa is zero).  A `\uXXXX` escape is
mapped through `Char.ofNat` (lone surrogates, which Lean `Char` cannot
represent, degrade to `Char.ofNat`'s default; no claim depends on
them). -/

/-- A parsed JSON value / JS object. -/
inductive Json where
  | null
  | bool (b : Bool)
  | num (raw : String)
  | str (s : String)
  | arr (elems : List Json)
  | obj (fields : List (String × Json))

/-- JSON insignificant whitespace (stricter than JS `\s`). -/
def isJsonWs (c : Char) : Bool :=
  c = ' ' || c = '\t' || c = '\n' || c = '\r'

/-- Skip insignificant whitespace. -/
def skipJsonWs (cs : List Char) : List Char :=
  cs.dropWhile isJsonWs

/-- Value of a hex digit. -/
def hexVal (c : Char) : Option Nat :=
  if '0' ≤ c ∧ c ≤ '9' then some (c.toNat - '0'.toNat)
  else if 'a' ≤ c ∧ c ≤ 'f' then some (c.toNat - 'a'.toNat + 10)
  else if 'A' ≤ c ∧ c ≤ 'F' then some (c.toNat - 'A'.toNat + 10)
  else none

/-- Parse the body of a JSON string, after the opening quote; `acc`
holds the accumulated characters in reverse.  Returns the string value
and the input after the closing quote. -/
def parseStringBody (acc : List Char) (cs : List Char) :
    Option (String × List Char) :=
  match cs with
  | [] => none
  | c :: cs1 =>
    if c = '"' then some (String.mk acc.reverse, cs1)
    else if c = '\\' then
      match cs1 with
      | [] => none
      | e :: cs2 =>
        if e = '"' then parseStringBody ('"' :: acc) cs2
        else if e = '\\' then parseStringBody ('\\' :: acc) cs2
        else if e = '/' then parseStringBody ('/' :: acc) cs2
        else if e = 'b' then parseStringBody ('\x08' :: acc) cs2
        else if e = 'f' then parseStringBody ('\x0c' :: acc) cs2
        else if e = 'n' then parseStringBody ('\n' :: acc) cs2
        else if e = 'r' then parseStringBody ('\x0d' :: acc) cs2
        else if e = 't' then parseStringBody ('\t' :: acc) cs2
        else if e = 'u' then
          match cs2 with
          | h1 :: h2 :: h3 :: h4 :: cs3 =>
            match hexVal h1, hexVal h2, hexVal h3, hexVal h4 with
            | some a, some b, some c3, some d =>
              parseStringBody (Char.ofNat (((a * 16 + b) * 16 + c3) * 16 + d) :: acc) cs3
            | _, _, _, _ => none
          | _ => none
        else none
    else if c.toNat < 32 then none
    else parseStringBody (c :: acc) cs1

/-- The optional fraction part of a JSON number: `.` followed by at
least one digit; extends the mantissa text `ip`. -/
def numFracPart (ip rest1 : List Char) : Option (List Char × List Char) :=
  match rest1 with
  | '.' :: r2 =>
    let fd := r2.takeWhile Char.isDigit
    if fd.isEmpty then none
    else some (ip ++ '.' :: fd, r2.dropWhile Char.isDigit)
  | _ => some (ip, rest1)

/-- The optional exponent part of a JSON number: `e`/`E`, an optional
sign, and at least one digit; assembles the raw literal. -/
def numExpPart (sign mant rest2 : List Char) : Option (String × List Char) :=
  match rest2 with
  | e :: r3 =>
    if e = 'e' || e = 'E' then
      let (sg, r4) :=
        match r3 with
        | '+' :: t => ((['+'] : List Char), t)
        | '-' :: t => (['-'], t)
        | _ => ([], r3)
      let ed := r4.takeWhile Char.isDigit
      if ed.isEmpty then none
      else some (String.mk (sign ++ mant ++ e :: sg ++ ed),
                  r4.dropWhile Char.isDigit)
    else some (String.mk (sign ++ mant), rest2)
  | [] => some (String.mk (sign ++ mant), rest2)

/-- Parse a JSON number starting at `cs` (which begins with `-` or a
digit): optional minus sign, an integer part without leading zeros,
then the fraction and exponent parts; returns the raw literal text and
the rest of the input. -/
def parseNumber (cs : List Char) : Option (String × List Char) :=
  let (sign, cs1) :=
    match cs with
    | '-' :: t => ((['-'] : List Char), t)
    | _ => ([], cs)
  match cs1 with
  | [] => none
  | d :: _ =>
    if !d.isDigit then none
    else
      let (ip, rest1) :=
        if d = '0' then (['0'], cs1.drop 1)
        else (cs1.takeWhile Char.isDigit, cs1.dropWhile Char.isDigit)
      match numFracPart ip rest1 with
      | none => none
      | some (mant, rest2) => numExpPart sign mant rest2

mutual

/-- Parse one JSON value (fuel-indexed; `jsonParse` supplies enough
fuel for any input). -/
def parseValue : Nat → List Char → Option (Json × List Char)
  | 0, _ => none
  | fuel + 1, cs =>
    match skipJsonWs cs with
    | [] => none
    | c :: rest =>
      if c = '"' then
        match parseStringBody [] rest with
        | some (s, r) => some (.str s, r)
        | none => none
      else if c = '{' then
        parseMembers fuel rest
      else if c = '[' then
        parseElements fuel rest
      else if c = 't' then
        match rest with
        | 'r' :: 'u' :: 'e' :: r => some (.bool true, r)
        | _ => none
      else if c = 'f' then
        match rest with
        | 'a' :: 'l' :: 's' :: 'e' :: r => some (.bool false, r)
        | _ => none
      else if c = 'n' then
        match rest with
        | 'u' :: 'l' :: 'l' :: r => some (.null, r)
        | _ => none
      else if c = '-' || c.isDigit then
        match parseNumber (c :: rest) with
        | some (raw, r) => some (.num raw, r)
        | none => none
      else none

/-- Parse an object body, after the `{`. -/
def parseMembers : Nat → List Char → Option (Json × List Char)
  | 0, _ => none
  | fuel + 1, cs =>
    match skipJsonWs cs with
    | '}' :: r => some (.obj [], r)
    | _ => parseMemberList fuel cs []

/-- Parse one or more `"key": value` members separated by commas, then
the closing `}`; `acc` holds parsed members in reverse. -/
def parseMemberList : Nat → List Char → List (String × Json) →
    Option (Json × List Char)
  | 0, _, _ => none
  | fuel + 1, cs, acc =>
    match skipJsonWs cs with
    | '"' :: r1 =>
      match parseStringBody [] r1 with
      | some (key, r2) =>
        match skipJsonWs r2 with
        | ':' :: r3 =>
          match parseValue fuel r3 with
          | some (v, r4) =>
            match skipJsonWs r4 with
            | ',' :: r5 => parseMemberList fuel r5 ((key, v) :: acc)
            | '}' :: r5 => some (.obj ((key, v) :: acc).reverse, r5)
            | _ => none
          | none => none
        | _ => none
      | none => none
    | _ => none

/-- Parse an array body, after the `[`. -/
def parseElements : Nat → List Char → Option (Json × List Char)
  | 0, _ => none
  | fuel + 1, cs =>
    match skipJsonWs cs with
    | ']' :: r => some (.arr [], r)
    | _ => parseElementList fuel cs []

/-- Parse one or more array elements separated by commas, then the
closing `]`; `acc` holds parsed elements in reverse. -/
def parseElementList : Nat → List Char → List Json →
    Option (Json × List Char)
  | 0, _, _ => none
  | fuel + 1, cs, acc =>
    match parseValue fuel cs with
    | some (v, r1) =>
      match skipJsonWs r1 with
      | ',' :: r2 => parseElementList fuel r2 (v :: acc)
      | ']' :: r2 => some (.arr (v :: acc).reverse, r2)
      | _ => none
    | none => none

end

/-- `JSON.parse`: parse a complete JSON text (one value plus
whitespace); `none` models the thrown `SyntaxError`. -/
def jsonParse (s : String) : Option Json :=
  match parseValue (s.data.length + 1) s.data with
  | some (v, rest) => if skipJsonWs rest = [] then some v else none
  | none => none

/-- JS property lookup on a parsed value: only objects have the
properties read by `parseLLMResponse`; on an object with duplicate
keys the last occurrence wins (as in a JS object literal).  `null` is
handled separately by the caller (property access on `null` throws). -/
def jsGetProp : Json → String → Option Json
  | .obj fields, key => (fields.reverse.find? fun kv => kv.1 = key).map (·.2)
  | _, _ => none

/-- JS truthiness of a parsed JSON value (`undefined` is the `none`
case of the callers).  A number is falsy exactly when its mantissa is
zero. -/
def jsTruthy : Json → Bool
  | .null => false
  | .bool b => b
  | .num raw =>
    (raw.data.takeWhile fun c => !(c = 'e' || c = 'E')).any fun c =>
      c.isDigit && c ≠ '0'
  | .str s => s ≠ ""
  | .arr _ => true
  | .obj _ => true

/-- `x || dflt` for a possibly-missing field value, with a string
default (as in `parsed.sql || ''`). -/
def jsOrString (v : Option Json) (dflt : String) : Json :=
  match v with
  | some j => if jsTruthy j then j else .str dflt
  | none => .str dflt

/-- `['high','medium','low'].includes(parsed.confidence) ?
parsed.confidence : 'medium'`. -/
def confidenceOf (v : Option Json) : String :=
  match v with
  | some (.str s) => if s = "high" || s = "medium" || s = "low" then s else "medium"
  | _ => "medium"

/-- The result shape of `parseLLMResponse`.  In the JS source `sql` and
`explanation` are whatever values the parsed JSON carried (strings in
every intended use), so they are `Json` here; `confidence` is always a
string. -/
structure LLMParsed where
  sql : Json
  explanation : Json
  confidence : String

/-- Case-insensitive match of a lowercase pattern at the head of the
input (the regex literal `SELECT` under the `i` flag). -/
def matchLowerCI : List Char → List Char → Bool
  | [], _ => true
  | _ :: _, [] => false
  | p :: ps, c :: cs => p = c.toLower && matchLowerCI ps cs

/-- Index of the first `;`. -/
def firstSemiIdx : List Char → Option Nat
  | [] => none
  | c :: cs => if c = ';' then some 0 else (firstSemiIdx cs).map (· + 1)

/-- The match of `/SELECT[\s\S]+?(?:;|$)/i` at a position where
`SELECT` matches: lazily extend past at least one character up to and
including the next `;`, or to the end of input; fail if nothing
follows `SELECT` (then the engine resumes scanning). -/
def selectMatchAt (cs : List Char) : Option (List Char) :=
  match cs.drop 6 with
  | [] => none
  | _ :: rtail =>
    match firstSemiIdx rtail with
    | some i => some (cs.take (6 + i + 2))
    | none => some cs

/-- Scan for the first match of `/SELECT[\s\S]+?(?:;|$)/i`. -/
def selectScan : List Char → Option (List Char)
  | [] => none
  | c :: cs =>
    if matchLowerCI "select".data (c :: cs) then
      match selectMatchAt (c :: cs) with
      | some m => some m
      | none => selectScan cs
    else selectScan cs

/-- The `catch` branch of `parseLLMResponse`: extract a `SELECT …`
substring from the raw response (trimmed), or fall back to the whole
raw text, with confidence forced to `low`. -/
def fallbackExtract (response : String) : LLMParsed :=
  match selectScan response.data with
  | some m =>
    { sql := .str (jsTrim (String.mk m))
      explanation := .str "Extracted SQL from response"
      confidence := "low" }
  | none =>
    { sql := .str response
      explanation := .str "Extracted SQL from response"
      confidence := "low" }

/-- Drop the last `n` characters (JS `slice(0, -n)`). -/
def dropLastN (cs : List Char) (n : Nat) : List Char :=
  (cs.reverse.drop n).reverse

/-- The fence-stripping prelude of `parseLLMResponse`: trim, remove a
leading ```` ```json ```` (7 chars) or ```` ``` ```` (3 chars) marker,
remove a trailing ```` ``` ```` marker, trim again. -/
def stripFences (response : String) : String :=
  let jsonStr0 := jsTrim response
  let jsonStr1 :=
    if jsStartsWith jsonStr0 "```json" then String.mk (jsonStr0.data.drop 7)
    else if jsStartsWith jsonStr0 "```" then String.mk (jsonStr0.data.drop 3)
    else jsonStr0
  let jsonStr2 :=
    if jsEndsWith jsonStr1 "```" then String.mk (dropLastN jsonStr1.data 3)
    else jsonStr1
  jsTrim jsonStr2

/-- The field extraction of the `try` branch of `parseLLMResponse`
(`parsed` is non-`null`; property access on `null` throws and is
routed to the fallback by the caller). -/
def extractFromParsed (parsed : Json) : LLMParsed :=
  { sql := jsOrString (jsGetProp parsed "sql") ""
    explanation := jsOrString (jsGetProp parsed "explanation") "No explanation provided"
    confidence := confidenceOf (jsGetProp parsed "confidence") }

/-- `parseLLMResponse` from `src/lib/llm/prompts.ts`: strip fences,
`JSON.parse`, extract the three fields with defaults; on a parse error
— or on the `TypeError` thrown by property access when the parsed
value is `null` — fall back to regex extraction from the raw
response. -/
def parseLLMResponse (response : String) : LLMParsed :=
  match jsonParse (stripFences response) with
  | some .null => fallbackExtract response
  | some parsed => extractFromParsed parsed
  | none => fallbackExtract response

/-! ### Schema introspection (`introspectSchema` in `src/lib/db/schema.ts`) -/

/-- A foreign-key edge of `src/lib/db/types.ts`. -/
structure ForeignKey where
  columnName : String
  referencedTable : String
  referencedColumn : String

/-- A column of `src/lib/db/types.ts`. -/
structure TableColumn where
  name : String
  type : String
  isNullable : Bool
  isPrimary : Bool
  defaultValue : Option String
  comment : Option String

/-- A table of `src/lib/db/types.ts`. -/
structure TableSchema where
  name : String
  schema : String
  columns : List TableColumn
  primaryKeys : List String
  foreignKeys : List ForeignKey
  comment : Option String

/-- `DatabaseSchema` of `src/lib/db/types.ts`; the timestamp is an
abstract clock value. -/
structure DatabaseSchema where
  tables : List TableSchema
  timestamp : Nat

/-- A row of the `information_schema.tables` catalog query. -/
structure TableRow where
  table_name : String
  table_schema : String
  table_comment : Option String

/-- A row of the `information_schema.columns` catalog query. -/
structure ColumnRow where
  column_name : String
  data_type : String
  udt_name : Option String
  is_nullable : String
  column_default : Option String
  column_comment : Option String

/-- The database's catalog, as an oracle answering the four
introspection queries, plus the current clock value. -/
structure CatalogDb where
  tablesAnswer : List TableRow
  columnsAnswer : String → String → List ColumnRow
  pkAnswer : String → String → List String
  fkAnswer : String → String → List ForeignKey
  now : Nat

/-- The per-table body of the `introspectSchema` loop: fetch columns,
primary keys and foreign keys, and assemble the `TableSchema`
(`col.udt_name || col.data_type`, `is_nullable === 'YES'`, membership
of the column name in the primary-key list). -/
def introspectTable (db : CatalogDb) (tableRow : TableRow) : TableSchema :=
  let tableName := tableRow.table_name
  let tableSchema := tableRow.table_schema
  let columnsResult := db.columnsAnswer tableSchema tableName
  let primaryKeys := db.pkAnswer tableSchema tableName
  let foreignKeys := db.fkAnswer tableSchema tableName
  let columns := columnsResult.map fun col =>
    { name := col.column_name
      type := match col.udt_name with
              | some u => if u = "" then col.data_type else u
              | none => col.data_type
      isNullable := col.is_nullable = "YES"
      isPrimary := primaryKeys.contains col.column_name
      defaultValue := col.column_default
      comment := col.column_comment : TableColumn }
  { name := tableName
    schema := tableSchema
    columns := columns
    primaryKeys := primaryKeys
    foreignKeys := foreignKeys
    comment := tableRow.table_comment }

/-- Outcome of one `introspectSchema` call: the returned schema, the
module-level cache slot afterwards, and the number of catalog queries
issued during the call. -/
structure IntrospectResult where
  schema : DatabaseSchema
  cache : Option DatabaseSchema
  catalogQueries : Nat

/-- `introspectSchema` from `src/lib/db/schema.ts`: return the cache
when it is populated and `forceRefresh` is false; otherwise run the
table listing (1 query) plus three catalog queries per table, store the
fresh schema in the cache and return it. -/
def introspectSchema (db : CatalogDb) (forceRefresh : Bool)
    (schemaCache : Option DatabaseSchema) : IntrospectResult :=
  match schemaCache with
  | some cached =>
    if !forceRefresh then
      { schema := cached, cache := some cached, catalogQueries := 0 }
    else
      let fresh : DatabaseSchema :=
        { tables := db.tablesAnswer.map (introspectTable db), timestamp := db.now }
      { schema := fresh, cache := some fresh,
        catalogQueries := 1 + 3 * db.tablesAnswer.length }
  | none =>
    let fresh : DatabaseSchema :=
      { tables := db.tablesAnswer.map (introspectTable db), timestamp := db.now }
    { schema := fresh, cache := some fresh,
      catalogQueries := 1 + 3 * db.tablesAnswer.length }

/-! ### Helper lemmas about the validator's scanning functions -/

lemma startsWithL_head {p : Char} {ps cs : List Char}
    (h : startsWithL (p :: ps) cs = true) : cs.head? = some p := by
  cases cs with
  | nil => simp [startsWithL] at h
  | cons c rest =>
    simp only [startsWithL, Bool.and_eq_true, decide_eq_true_eq] at h
    simp [h.1]

lemma jsStartsWith_head (kw : String) (c : Char) {s : String}
    (h : jsStartsWith s kw = true) (hkw : kw.data.head? = some c) :
    s.data.head? = some c := by
  unfold jsStartsWith at h
  cases hk : kw.data with
  | nil => rw [hk] at hkw; cases hkw
  | cons p ps =>
    rw [hk] at h hkw
    simp only [List.head?_cons, Option.some.injEq] at hkw
    rw [← hkw]
    exact startsWithL_head h

/-- A query whose normalized text does not begin with `s` or `w` can
start with neither `select` nor `with`, so `validateQuery` rejects it. -/
lemma validateQuery_invalid_of_head {sql : String} {c : Char}
    (h : (jsToLower (jsTrim sql)).data.head? = some c)
    (hs : c ≠ 's') (hw : c ≠ 'w') : (validateQuery sql).valid = false := by
  have h1 : jsStartsWith (jsToLower (jsTrim sql)) "select" = false := by
    cases hb : jsStartsWith (jsToLower (jsTrim sql)) "select" with
    | false => rfl
    | true =>
      have h2 := jsStartsWith_head "select" 's' hb rfl
      rw [h] at h2
      exact absurd (Option.some.inj h2) hs
  have h2 : jsStartsWith (jsToLower (jsTrim sql)) "with" = false := by
    cases hb : jsStartsWith (jsToLower (jsTrim sql)) "with" with
    | false => rfl
    | true =>
      have h3 := jsStartsWith_head "with" 'w' hb rfl
      rw [h] at h3
      exact absurd (Option.some.inj h3) hw
  simp only [validateQuery]
  split
  · rfl
  · rw [h1, h2]
    simp

lemma matchThenSpace_self {c : Char} (kw : List Char) (rest : List Char)
    (hc : isJsSpace c = true) :
    matchThenSpace kw (kw ++ c :: rest) = true := by
  induction kw with
  | nil => simpa [matchThenSpace] using hc
  | cons k ks ih => simp [matchThenSpace, ih]

lemma stackedHit_append_left {ys : List Char} (xs : List Char)
    (h : stackedHit ys = true) : stackedHit (xs ++ ys) = true := by
  induction xs with
  | nil => simpa using h
  | cons x xs ih => simp [stackedHit, ih]

lemma stackedKeywordHere_intro (kw w b : List Char) (c : Char) (hd : Char) (tl : List Char)
    (hkw : String.mk kw ∈ stackedKeywords)
    (hsplit : kw = hd :: tl) (hhd : isJsSpace hd = false)
    (hw : ∀ ch ∈ w, isJsSpace ch = true) (hc : isJsSpace c = true) :
    stackedKeywordHere (w ++ kw ++ c :: b) = true := by
  unfold stackedKeywordHere
  rw [List.any_eq_true]
  refine ⟨String.mk kw, hkw, ?_⟩
  have hdrop : (w ++ kw ++ c :: b).dropWhile isJsSpace = kw ++ c :: b := by
    rw [List.append_assoc, List.dropWhile_append]
    have hwd : w.dropWhile isJsSpace = [] := by
      rw [List.dropWhile_eq_nil_iff]
      intro x hx
      simp [hw x hx]
    rw [hwd]
    simp only [List.isEmpty_nil, if_true]
    rw [hsplit]
    rw [List.cons_append, List.dropWhile_cons_of_neg (by simp [hhd])]
  rw [hdrop]
  exact matchThenSpace_self kw b hc

/-- A stacked-keyword occurrence in the normalized text makes
`validateQuery` reject. -/
lemma validateQuery_invalid_of_stacked (sql : String)
    (h : stackedHit (jsToLower (jsTrim sql)).data = true) :
    (validateQuery sql).valid = false := by
  simp only [validateQuery]
  rw [h]
  simp

/-! ### Claim C1 (corrected) -/

/-- Claim C1, as stated, is false: `exec` and `execute` are listed in
the claim but absent from the stacked-statement regex
`/;\s*(insert|update|delete|drop|truncate|alter|create|grant|revoke)\s+/i`.
The string `"select 1; exec sp_who"` contains a `;` followed (after
whitespace) by the listed keyword `exec`, yet `validateQuery` accepts
it. -/
theorem validateQuery_stacked_exec_accepted :
    (∃ a w kw b : String, kw ∈ leadingKeywords ∧
        (∀ ch ∈ w.data, isJsSpace ch = true) ∧
        jsToLower (jsTrim "select 1; exec sp_who") = a ++ ";" ++ w ++ kw ++ b)
      ∧ (validateQuery "select 1; exec sp_who").valid = true := by
  constructor
  · exact ⟨"select 1", " ", "exec", " sp_who", by decide, by decide, by decide⟩
  · decide

/-- Claim C1 (amended): for every SQL string whose trimmed, lowercased
text contains a `;` followed (possibly after whitespace) by one of the
nine keywords insert, update, delete, drop, truncate, alter, create,
grant, revoke — the keyword itself being followed by a whitespace
character — `validateQuery` returns invalid.  (The stacked-statement
rejection does not cover `exec` or `execute`.) -/
theorem validateQuery_stacked_nine_rejected
    (sql a w kw b : String) (c : Char)
    (hkw : kw ∈ stackedKeywords)
    (hw : ∀ ch ∈ w.data, isJsSpace ch = true)
    (hc : isJsSpace c = true)
    (hsplit : jsToLower (jsTrim sql) = a ++ ";" ++ w ++ kw ++ String.mk [c] ++ b) :
    (validateQuery sql).valid = false := by
  apply validateQuery_invalid_of_stacked
  have hd : (jsToLower (jsTrim sql)).data =
      a.data ++ ';' :: (w.data ++ (kw.data ++ c :: b.data)) := by
    rw [hsplit]
    simp only [String.data_append]
    simp
  rw [hd]
  apply stackedHit_append_left
  have hkh : stackedKeywordHere (w.data ++ (kw.data ++ c :: b.data)) = true := by
    obtain ⟨hdc, tl, hkd, hhd⟩ :
        ∃ hdc tl, kw.data = hdc :: tl ∧ isJsSpace hdc = false := by
      fin_cases hkw
      · exact ⟨'i', _, rfl, by decide⟩
      · exact ⟨'u', _, rfl, by decide⟩
      · exact ⟨'d', _, rfl, by decide⟩
      · exact ⟨'d', _, rfl, by decide⟩
      · exact ⟨'t', _, rfl, by decide⟩
      · exact ⟨'a', _, rfl, by decide⟩
      · exact ⟨'c', _, rfl, by decide⟩
      · exact ⟨'g', _, rfl, by decide⟩
      · exact ⟨'r', _, rfl, by decide⟩
    rw [← List.append_assoc]
    refine stackedKeywordHere_intro kw.data w.data b.data c hdc tl ?_ hkd hhd hw hc
    show String.mk kw.data ∈ stackedKeywords
    cases kw
    exact hkw
  show stackedHit (';' :: (w.data ++ (kw.data ++ c :: b.data))) = true
  simp [stackedHit, hkh]

/-- Witness for the amended claim C1: the spec's own stacked-statement
example is rejected. -/
theorem validateQuery_stacked_nine_rejected_witness :
    (validateQuery "select 1; drop table t").valid = false := by
  apply validateQuery_stacked_nine_rejected
    "select 1; drop table t" "select 1" " " "drop" "table t" ' '
    (by decide) (by decide) (by decide)
  decide

/-! ### Claim C2 (confirmed) -/

/-- Claim C2: `validateQuery` returns valid exactly when the trimmed,
lowercased text starts with `select` or `with` and matches none of the
forbidden patterns (the eleven anchored leading-keyword patterns and
the stacked-statement pattern); every string beginning with one of the
eleven keywords is rejected, and the two spec examples are accepted. -/
theorem validateQuery_valid_iff :
    (∀ sql : String,
      (validateQuery sql).valid = true ↔
        ((jsStartsWith (jsToLower (jsTrim sql)) "select" = true ∨
          jsStartsWith (jsToLower (jsTrim sql)) "with" = true) ∧
         leadingHit (jsToLower (jsTrim sql)).data = false ∧
         stackedHit (jsToLower (jsTrim sql)).data = false))
    ∧ (∀ (sql kw : String), kw ∈ leadingKeywords →
        jsStartsWith (jsToLower (jsTrim sql)) kw = true →
        (validateQuery sql).valid = false)
    ∧ (validateQuery "SELECT 1").valid = true
    ∧ (validateQuery "WITH x AS (SELECT 1) SELECT * FROM x").valid = true := by
  refine ⟨?_, ?_, by decide, by decide⟩
  · intro sql
    simp only [validateQuery]
    split
    · rename_i hf
      simp only [Bool.or_eq_true] at hf
      constructor
      · intro h; cases h
      · rintro ⟨-, hl, hs⟩
        rw [hl, hs] at hf
        simp at hf
    · rename_i hf
      simp only [Bool.or_eq_true, not_or, Bool.not_eq_true] at hf
      obtain ⟨hl, hs⟩ := hf
      split
      · rename_i hsw
        simp only [Bool.and_eq_true, Bool.not_eq_true'] at hsw
        constructor
        · intro h; cases h
        · rintro ⟨hor, -, -⟩
          rcases hor with h | h
          · rw [hsw.1] at h; cases h
          · rw [hsw.2] at h; cases h
      · rename_i hsw
        have hor : jsStartsWith (jsToLower (jsTrim sql)) "select" = true ∨
            jsStartsWith (jsToLower (jsTrim sql)) "with" = true := by
          by_contra hno
          rw [not_or, Bool.not_eq_true, Bool.not_eq_true] at hno
          exact hsw (by rw [hno.1, hno.2]; rfl)
        exact ⟨fun _ => ⟨hor, hl, hs⟩, fun _ => rfl⟩
  · intro sql kw hmem hstart
    fin_cases hmem <;>
      first
        | exact validateQuery_invalid_of_head (jsStartsWith_head _ 'i' hstart rfl)
            (by decide) (by decide)
        | exact validateQuery_invalid_of_head (jsStartsWith_head _ 'u' hstart rfl)
            (by decide) (by decide)
        | exact validateQuery_invalid_of_head (jsStartsWith_head _ 'd' hstart rfl)
            (by decide) (by decide)
        | exact validateQuery_invalid_of_head (jsStartsWith_head _ 't' hstart rfl)
            (by decide) (by decide)
        | exact validateQuery_invalid_of_head (jsStartsWith_head _ 'a' hstart rfl)
            (by decide) (by decide)
        | exact validateQuery_invalid_of_head (jsStartsWith_head _ 'c' hstart rfl)
            (by decide) (by decide)
        | exact validateQuery_invalid_of_head (jsStartsWith_head _ 'g' hstart rfl)
            (by decide) (by decide)
        | exact validateQuery_invalid_of_head (jsStartsWith_head _ 'r' hstart rfl)
            (by decide) (by decide)
        | exact validateQuery_invalid_of_head (jsStartsWith_head _ 'e' hstart rfl)
            (by decide) (by decide)

/-- Witness for claim C2 at a concrete input: a query beginning with
`insert` is rejected. -/
theorem validateQuery_valid_iff_witness :
    (validateQuery "insert into t values (1)").valid = false :=
  validateQuery_valid_iff.2.1 "insert into t values (1)" "insert"
    (by decide) (by decide)

/-! ### Claim C3 (confirmed) -/

/-- Claim C3: whenever `validateQuery` classifies the SQL as invalid,
`executeQuery` fails with the validation error and submits nothing to
the database — the issued-query list is empty, and no rows, fields or
timing are produced (the outcome is the bare error). -/
theorem executeQuery_rejects_invalid {Row Param : Type}
    (queryTimeout maxResultRows : Nat)
    (db : String → List Param → Except String (PgResult Row))
    (elapsedMs : Nat) (sql : String) (params : List Param)
    (h : (validateQuery sql).valid = false) :
    executeQuery queryTimeout maxResultRows db elapsedMs sql params =
      (.error ((validateQuery sql).error.getD ""), []) := by
  simp only [executeQuery]
  rw [h]
  simp

/-- Witness for claim C3: a `DROP TABLE` statement is rejected and the
database oracle is never consulted, even though it would answer. -/
theorem executeQuery_rejects_invalid_witness :
    (validateQuery "DROP TABLE t").valid = false ∧
    executeQuery 30000 1000
        (fun (_ : String) (_ : List Unit) =>
          .ok (⟨[("row" : String)], some 1, []⟩ : PgResult String))
        5 "DROP TABLE t" [] =
      (.error "Only SELECT queries are allowed. Data modification operations are disabled.", []) :=
  ⟨by decide, executeQuery_rejects_invalid 30000 1000 _ 5 "DROP TABLE t" [] (by decide)⟩

/-! ### Claim C4 (corrected) -/

/-- Claim C4, as stated, is false in one detail: when the SQL already
contains a `LIMIT` clause the executed text is the *trimmed* input, not
the input unchanged.  For `" SELECT 1 LIMIT 5 "` (note the surrounding
whitespace) the text submitted to the pool differs from the input. -/
theorem executeQuery_limit_unchanged_cex :
    hasLimitClause " SELECT 1 LIMIT 5 " = true ∧
    safeSqlText 1000 " SELECT 1 LIMIT 5 " ≠ " SELECT 1 LIMIT 5 " ∧
    (executeQuery 30000 1000
        (fun (_ : String) (_ : List Unit) =>
          .ok (⟨([] : List Unit), some 0, []⟩ : PgResult Unit))
        0 " SELECT 1 LIMIT 5 " []).2 = ["SELECT 1 LIMIT 5"] :=
  ⟨by decide, by decide, by decide⟩

/-- Claim C4 (amended): when the input SQL has no existing `LIMIT`
clause, the executed text is the trimmed input with a trailing
semicolon stripped and the configured maximum-row `LIMIT` appended
(so it contains `LIMIT <max>`); when the SQL already contains a
`LIMIT` clause, the executed text is the trimmed input, unchanged
apart from whitespace trimming. -/
theorem executeQuery_limit_append (maxRows : Nat) (sql : String) :
    (hasLimitClause (jsTrim sql) = false →
      safeSqlText maxRows sql =
        stripTrailingSemi (jsTrim sql) ++ " LIMIT " ++ toString maxRows ∧
      ("LIMIT " ++ toString maxRows).data <:+: (safeSqlText maxRows sql).data)
    ∧ (hasLimitClause (jsTrim sql) = true →
        safeSqlText maxRows sql = jsTrim sql) := by
  constructor
  · intro h
    have heq : safeSqlText maxRows sql =
        stripTrailingSemi (jsTrim sql) ++ " LIMIT " ++ toString maxRows := by
      simp [safeSqlText, h]
    refine ⟨heq, ?_⟩
    rw [heq]
    apply List.IsSuffix.isInfix
    refine ⟨(stripTrailingSemi (jsTrim sql)).data ++ [' '], ?_⟩
    have hsp : (" LIMIT " ++ toString maxRows).data =
        ' ' :: ("LIMIT " ++ toString maxRows).data := by
      simp only [String.data_append]
      rfl
    simp only [String.data_append, hsp]
    simp [List.append_assoc]
  · intro h
    simp [safeSqlText, h]

/-- Witness for the amended claim C4 at the spec's two examples (with
a configured max of 1000). -/
theorem executeQuery_limit_append_witness :
    (hasLimitClause (jsTrim "SELECT * FROM t;") = false ∧
      safeSqlText 1000 "SELECT * FROM t;" =
        stripTrailingSemi (jsTrim "SELECT * FROM t;") ++ " LIMIT " ++ toString 1000)
    ∧ (hasLimitClause (jsTrim "SELECT 1 LIMIT 5") = true ∧
        safeSqlText 1000 "SELECT 1 LIMIT 5" = jsTrim "SELECT 1 LIMIT 5") :=
  ⟨⟨by decide, ((executeQuery_limit_append 1000 "SELECT * FROM t;").1 (by decide)).1⟩,
   ⟨by decide, (executeQuery_limit_append 1000 "SELECT 1 LIMIT 5").2 (by decide)⟩⟩

/-! ### Claim C5 (confirmed) -/

/-- Claim C5: any match of `/\bLIMIT\s+\d+/i` anywhere in the trimmed
SQL — including inside a subquery, a string literal or a comment —
counts as an existing limit, and in that case no row cap at all is
applied: the executed text is exactly the trimmed input with nothing
appended. -/
theorem executeQuery_existing_limit_no_cap :
    (∀ (maxRows : Nat) (sql : String),
      hasLimitClause (jsTrim sql) = true →
        safeSqlText maxRows sql = jsTrim sql)
    ∧ hasLimitClause "SELECT * FROM (SELECT id FROM t LIMIT 10) sub" = true
    ∧ hasLimitClause "SELECT 'has LIMIT 5 inside a literal' FROM t" = true
    ∧ hasLimitClause "SELECT a FROM t -- LIMIT 20" = true
    ∧ safeSqlText 1000 "SELECT a FROM t -- LIMIT 20" =
        "SELECT a FROM t -- LIMIT 20" := by
  refine ⟨?_, by decide, by decide, by decide, by decide⟩
  intro maxRows sql h
  simp [safeSqlText, h]

/-- Witness for claim C5: a `LIMIT` inside a subquery suppresses the
outer row cap entirely. -/
theorem executeQuery_existing_limit_no_cap_witness :
    hasLimitClause (jsTrim "SELECT * FROM (SELECT id FROM t LIMIT 10) sub") = true ∧
    safeSqlText 7 "SELECT * FROM (SELECT id FROM t LIMIT 10) sub" =
      jsTrim "SELECT * FROM (SELECT id FROM t LIMIT 10) sub" :=
  ⟨by decide, executeQuery_existing_limit_no_cap.1 7 _ (by decide)⟩

/-! ### Helper lemmas about `trimL` (JS `trim`) -/

lemma String_mk_data : ∀ s : String, String.mk s.data = s := fun ⟨_⟩ => rfl

lemma dropWhile_head_not {α : Type} {p : α → Bool} :
    ∀ (l : List α) (c : α), (l.dropWhile p).head? = some c → p c = false := by
  intro l
  induction l with
  | nil => intro c h; simp at h
  | cons a l ih =>
    intro c h
    rw [List.dropWhile_cons] at h
    by_cases hp : p a = true
    · rw [if_pos hp] at h
      exact ih c h
    · rw [if_neg hp] at h
      simp only [List.head?_cons, Option.some.injEq] at h
      rw [← h]
      exact Bool.eq_false_iff.mpr hp

lemma trimL_cons_of_space {c : Char} (cs : List Char) (h : isJsSpace c = true) :
    trimL (c :: cs) = trimL cs := by
  unfold trimL
  rw [List.dropWhile_cons_of_pos h]

lemma trimL_append_space {c : Char} (cs : List Char) (h : isJsSpace c = true) :
    trimL (cs ++ [c]) = trimL cs := by
  unfold trimL
  rw [List.dropWhile_append]
  by_cases he : (cs.dropWhile isJsSpace).isEmpty = true
  · rw [if_pos he]
    rw [List.isEmpty_iff] at he
    rw [he]
    simp [List.dropWhile_cons, h]
  · rw [if_neg he]
    rw [List.reverse_append]
    simp only [List.reverse_cons, List.reverse_nil, List.nil_append,
      List.singleton_append]
    rw [List.dropWhile_cons_of_pos h]

lemma trimL_head_not_space (cs : List Char) (c : Char)
    (h : (trimL cs).head? = some c) : isJsSpace c = false := by
  unfold trimL at h
  set u := cs.dropWhile isJsSpace with hu
  set v := u.reverse.dropWhile isJsSpace with hv
  rw [List.head?_reverse] at h
  have hvne : v ≠ [] := by
    intro hnil
    rw [hnil] at h
    simp at h
  have hsuf : v <:+ u.reverse := by
    rw [hv]
    exact List.dropWhile_suffix isJsSpace
  obtain ⟨t, ht⟩ := hsuf
  have hlast : u.reverse.getLast? = some c := by
    rw [← ht, List.getLast?_append, h]
    rfl
  rw [List.getLast?_reverse] at hlast
  exact dropWhile_head_not cs c hlast

lemma trimL_last_not_space (cs : List Char) (c : Char)
    (h : (trimL cs).getLast? = some c) : isJsSpace c = false := by
  unfold trimL at h
  rw [List.getLast?_reverse] at h
  exact dropWhile_head_not _ c h

lemma trimL_eq_self (cs : List Char)
    (hh : ∀ c, cs.head? = some c → isJsSpace c = false)
    (hl : ∀ c, cs.getLast? = some c → isJsSpace c = false) :
    trimL cs = cs := by
  cases cs with
  | nil => rfl
  | cons a l =>
    unfold trimL
    have h1 : (a :: l).dropWhile isJsSpace = a :: l :=
      List.dropWhile_cons_of_neg (by simp [hh a rfl])
    rw [h1]
    cases hr : (a :: l).reverse with
    | nil => simp at hr
    | cons b r2 =>
      have hb : isJsSpace b = false := by
        apply hl
        rw [← List.head?_reverse, hr]
        rfl
      have hd2 : List.dropWhile isJsSpace (b :: r2) = b :: r2 :=
        List.dropWhile_cons_of_neg (by simp [hb])
      rw [hd2, ← hr, List.reverse_reverse]

lemma trimL_idem (cs : List Char) : trimL (trimL cs) = trimL cs :=
  trimL_eq_self _ (trimL_head_not_space cs) (trimL_last_not_space cs)

/-! ### Helper lemmas about the JSON parser -/

lemma suffix_extend (a : Char) {l1 l2 : List Char} (h : l1 <:+ l2) : l1 <:+ a :: l2 :=
  h.trans (List.suffix_cons a l2)

set_option maxHeartbeats 1000000 in
lemma parseStringBody_suffix : ∀ (acc cs : List Char) (s : String) (rest : List Char),
    parseStringBody acc cs = some (s, rest) → rest <:+ cs := by
  intro acc cs
  induction acc, cs using parseStringBody.induct
  all_goals intro s rest h
  all_goals rw [parseStringBody.eq_def] at h
  all_goals simp [*] at h
  all_goals first
    | (obtain ⟨h1, h2⟩ := h
       subst h2
       exact List.suffix_cons _ _)
    | (rename_i ih
       exact suffix_extend _ (suffix_extend _ (ih s rest h)))
    | (rename_i ih
       exact suffix_extend _ (ih s rest h))
    | (rename_i ih hlt
       exact suffix_extend _ (ih s rest h))
    | (rename_i ih
       exact suffix_extend _ (suffix_extend _ (suffix_extend _ (suffix_extend _
         (suffix_extend _ (suffix_extend _ (ih s rest h)))))))

lemma numExpPart_suffix (sign mant rest2 : List Char) (raw : String) (rest : List Char)
    (h : numExpPart sign mant rest2 = some (raw, rest)) : rest <:+ rest2 := by
  rw [numExpPart.eq_def] at h
  split at h
  case h_2 =>
    simp only [Option.some.injEq, Prod.mk.injEq] at h
    rw [← h.2]
  case h_1 e r3 =>
    split at h
    case isFalse =>
      simp only [Option.some.injEq, Prod.mk.injEq] at h
      rw [← h.2]
    case isTrue hmark =>
      split at h
      rename_i x sg r4 heq
      dsimp only at h
      split at h
      case isTrue => cases h
      case isFalse hne =>
        simp only [Option.some.injEq, Prod.mk.injEq] at h
        rw [← h.2]
        have hr4 : r4 <:+ r3 := by
          split at heq
          · injection heq with h1 h2
            rw [← h2]
            exact List.suffix_cons _ _
          · injection heq with h1 h2
            rw [← h2]
            exact List.suffix_cons _ _
          · injection heq with h1 h2
            rw [← h2]
        exact ((List.dropWhile_suffix _).trans hr4).trans (List.suffix_cons _ _)

lemma numFracPart_suffix (ip rest1 : List Char) (mant rest2 : List Char)
    (h : numFracPart ip rest1 = some (mant, rest2)) : rest2 <:+ rest1 := by
  rw [numFracPart.eq_def] at h
  split at h
  case h_1 r2 =>
    dsimp only at h
    split at h
    case isTrue => cases h
    case isFalse =>
      simp only [Option.some.injEq, Prod.mk.injEq] at h
      rw [← h.2]
      exact (List.dropWhile_suffix _).trans (List.suffix_cons _ _)
  case h_2 =>
    simp only [Option.some.injEq, Prod.mk.injEq] at h
    rw [← h.2]

lemma parseNumber_suffix (cs : List Char) (raw : String) (rest : List Char)
    (h : parseNumber cs = some (raw, rest)) : rest <:+ cs := by
  rw [parseNumber.eq_def] at h
  split at h
  rename_i x sign cs1 heq
  dsimp only at h
  split at h
  case h_1 => cases h
  case h_2 d tl =>
    have htl : d :: tl <:+ cs := by
      split at heq
      · injection heq with h1 h2
        rw [← h2]
        exact List.suffix_cons _ _
      · injection heq with h1 h2
        rw [← h2]
    split at h
    case isTrue => cases h
    case isFalse hd =>
      split at h
      case h_1 => cases h
      case h_2 x2 mant rest2 hfrac =>
        have h2 : (if d = '0' then (['0'], List.drop 1 (d :: tl))
            else (List.takeWhile Char.isDigit (d :: tl),
                  List.dropWhile Char.isDigit (d :: tl))).2 <:+ d :: tl := by
          by_cases hz : d = '0'
          · rw [if_pos hz]
            exact List.drop_suffix _ _
          · rw [if_neg hz]
            exact List.dropWhile_suffix _
        exact (((numExpPart_suffix _ _ _ _ _ h).trans
          (numFracPart_suffix _ _ _ _ hfrac)).trans h2).trans htl

lemma skipJsonWs_cons_suffix {l m : List Char} {c : Char}
    (h : skipJsonWs l = c :: m) : c :: m <:+ l := by
  rw [← h]
  exact List.dropWhile_suffix _

lemma parseMemberList_suffix_step (n : Nat)
    (ihV : ∀ cs v rest, parseValue n cs = some (v, rest) → rest <:+ cs)
    (ihML : ∀ cs acc v rest, parseMemberList n cs acc = some (v, rest) → rest <:+ cs) :
    ∀ cs acc v rest, parseMemberList (n + 1) cs acc = some (v, rest) → rest <:+ cs := by
  intro cs acc v rest h
  rw [parseMemberList] at h
  split at h
  case h_2 => cases h
  case h_1 r1 heq =>
    have h1 : '"' :: r1 <:+ cs := skipJsonWs_cons_suffix heq
    split at h
    case h_2 => cases h
    case h_1 pr key r2 heq2 =>
      have h2 : r2 <:+ r1 := parseStringBody_suffix _ _ _ _ heq2
      split at h
      case h_2 => cases h
      case h_1 r3 heq3 =>
        have h3 : ':' :: r3 <:+ r2 := skipJsonWs_cons_suffix heq3
        split at h
        case h_2 => cases h
        case h_1 pr2 v4 r4 heq4 =>
          have h4 : r4 <:+ r3 := ihV _ _ _ heq4
          have hr3 : r3 <:+ cs :=
            ((List.suffix_cons ':' r3).trans h3).trans
              (h2.trans ((List.suffix_cons '"' r1).trans h1))
          split at h
          case h_1 r5 heq5 =>
            have h5 : ',' :: r5 <:+ r4 := skipJsonWs_cons_suffix heq5
            exact (ihML _ _ _ _ h).trans
              (((List.suffix_cons ',' r5).trans h5).trans (h4.trans hr3))
          case h_2 r5 heq5 =>
            have h5 : '}' :: r5 <:+ r4 := skipJsonWs_cons_suffix heq5
            injection h with h1x
            injection h1x with hv hr
            rw [← hr]
            exact ((List.suffix_cons '}' r5).trans h5).trans (h4.trans hr3)
          case h_3 => cases h



lemma parseValue_suffix_step (n : Nat)
    (ihM : ∀ cs v rest, parseMembers n cs = some (v, rest) → rest <:+ cs)
    (ihE : ∀ cs v rest, parseElements n cs = some (v, rest) → rest <:+ cs) :
    ∀ cs v rest, parseValue (n + 1) cs = some (v, rest) → rest <:+ cs := by
  intro cs v rest h
  rw [parseValue] at h
  split at h
  case h_1 => cases h
  case h_2 c r heq =>
    have hcr : c :: r <:+ cs := by
      rw [← heq]
      exact List.dropWhile_suffix _
    split at h
    case isTrue =>
      -- string
      split at h
      case h_1 pr s r2 heq2 =>
        injection h with h1
        injection h1 with h1 h2
        rw [← h2]
        exact (suffix_extend _ (parseStringBody_suffix _ _ _ _ heq2)).trans hcr
      case h_2 => cases h
    case isFalse =>
      split at h
      case isTrue =>
        exact (suffix_extend _ (ihM _ _ _ h)).trans hcr
      case isFalse =>
        split at h
        case isTrue =>
          exact (suffix_extend _ (ihE _ _ _ h)).trans hcr
        case isFalse =>
          split at h
          case isTrue =>
            -- t: match r with 'r'::'u'::'e'::rr
            split at h
            case h_1 rr =>
              injection h with h1
              injection h1 with h1 h2
              rw [← h2]
              exact (suffix_extend _ (suffix_extend _ (suffix_extend _
                (suffix_extend _ (List.suffix_refl _))))).trans hcr
            case h_2 => cases h
          case isFalse =>
            split at h
            case isTrue =>
              split at h
              case h_1 rr =>
                injection h with h1
                injection h1 with h1 h2
                rw [← h2]
                exact (suffix_extend _ (suffix_extend _ (suffix_extend _
                  (suffix_extend _ (suffix_extend _ (List.suffix_refl _)))))).trans hcr
              case h_2 => cases h
            case isFalse =>
              split at h
              case isTrue =>
                split at h
                case h_1 rr =>
                  injection h with h1
                  injection h1 with h1 h2
                  rw [← h2]
                  exact (suffix_extend _ (suffix_extend _ (suffix_extend _
                    (suffix_extend _ (List.suffix_refl _))))).trans hcr
                case h_2 => cases h
              case isFalse =>
                split at h
                case isTrue =>
                  split at h
                  case h_1 pr raw r2 heq2 =>
                    injection h with h1
                    injection h1 with h1 h2
                    rw [← h2]
                    exact (parseNumber_suffix _ _ _ heq2).trans hcr
                  case h_2 => cases h
                case isFalse => cases h

lemma parseMembers_suffix_step (n : Nat)
    (ihML : ∀ cs acc v rest, parseMemberList n cs acc = some (v, rest) → rest <:+ cs) :
    ∀ cs v rest, parseMembers (n + 1) cs = some (v, rest) → rest <:+ cs := by
  intro cs v rest h
  rw [parseMembers] at h
  split at h
  case h_1 r heq =>
    injection h with h1x
    injection h1x with hv hr
    rw [← hr]
    exact (List.suffix_cons '}' r).trans (skipJsonWs_cons_suffix heq)
  case h_2 => exact ihML _ _ _ _ h

lemma parseElementList_suffix_step (n : Nat)
    (ihV : ∀ cs v rest, parseValue n cs = some (v, rest) → rest <:+ cs)
    (ihEL : ∀ cs acc v rest, parseElementList n cs acc = some (v, rest) → rest <:+ cs) :
    ∀ cs acc v rest, parseElementList (n + 1) cs acc = some (v, rest) → rest <:+ cs := by
  intro cs acc v rest h
  rw [parseElementList] at h
  split at h
  case h_2 => cases h
  case h_1 pr w r1 heq =>
    have h1 : r1 <:+ cs := ihV _ _ _ heq
    split at h
    case h_1 r2 heq2 =>
      exact (ihEL _ _ _ _ h).trans
        (((List.suffix_cons ',' r2).trans (skipJsonWs_cons_suffix heq2)).trans h1)
    case h_2 r2 heq2 =>
      injection h with h1x
      injection h1x with hv hr
      rw [← hr]
      exact ((List.suffix_cons ']' r2).trans (skipJsonWs_cons_suffix heq2)).trans h1
    case h_3 => cases h

lemma parseElements_suffix_step (n : Nat)
    (ihEL : ∀ cs acc v rest, parseElementList n cs acc = some (v, rest) → rest <:+ cs) :
    ∀ cs v rest, parseElements (n + 1) cs = some (v, rest) → rest <:+ cs := by
  intro cs v rest h
  rw [parseElements] at h
  split at h
  case h_1 r heq =>
    injection h with h1x
    injection h1x with hv hr
    rw [← hr]
    exact (List.suffix_cons ']' r).trans (skipJsonWs_cons_suffix heq)
  case h_2 => exact ihEL _ _ _ _ h

lemma parsers_suffix : ∀ fuel : Nat,
    (∀ cs v rest, parseValue fuel cs = some (v, rest) → rest <:+ cs) ∧
    (∀ cs v rest, parseMembers fuel cs = some (v, rest) → rest <:+ cs) ∧
    (∀ cs acc v rest, parseMemberList fuel cs acc = some (v, rest) → rest <:+ cs) ∧
    (∀ cs v rest, parseElements fuel cs = some (v, rest) → rest <:+ cs) ∧
    (∀ cs acc v rest, parseElementList fuel cs acc = some (v, rest) → rest <:+ cs) := by
  intro fuel
  induction fuel with
  | zero =>
    refine ⟨?_, ?_, ?_, ?_, ?_⟩ <;>
      · intros cs
        intros
        simp [parseValue, parseMembers, parseMemberList, parseElements,
          parseElementList] at *
  | succ n ih =>
    obtain ⟨ihV, ihM, ihML, ihE, ihEL⟩ := ih
    exact ⟨parseValue_suffix_step n ihM ihE,
           parseMembers_suffix_step n ihML,
           parseMemberList_suffix_step n ihV ihML,
           parseElements_suffix_step n ihEL,
           parseElementList_suffix_step n ihV ihEL⟩

lemma stripFences_json_wrap (body : String) :
    stripFences ("```json\n" ++ body ++ "\n```") = jsTrim body := by
  have hdata : ("```json\n" ++ body ++ "\n```").data =
      '`' :: '`' :: '`' :: 'j' :: 's' :: 'o' :: 'n' :: '\n' ::
        (body.data ++ '\n' :: '`' :: '`' :: '`' :: []) := by
    simp only [String.data_append]
    rfl
  have htrim : jsTrim ("```json\n" ++ body ++ "\n```") =
      ("```json\n" ++ body ++ "\n```") := by
    unfold jsTrim
    rw [hdata]
    rw [trimL_eq_self]
    · rw [← hdata, String_mk_data]
    · intro c hc
      simp only [List.head?_cons, Option.some.injEq] at hc
      rw [← hc]
      decide
    · intro c hc
      have h2 : ('`' :: '`' :: '`' :: 'j' :: 's' :: 'o' :: 'n' :: '\n' ::
          (body.data ++ '\n' :: '`' :: '`' :: '`' :: [])) =
          ('`' :: '`' :: '`' :: 'j' :: 's' :: 'o' :: 'n' :: '\n' ::
            (body.data ++ ['\n', '`', '`'])) ++ ['`'] := by
        simp
      rw [h2, List.getLast?_concat] at hc
      simp only [Option.some.injEq] at hc
      rw [← hc]
      decide
  have hstart : jsStartsWith ("```json\n" ++ body ++ "\n```") "```json" = true := by
    unfold jsStartsWith
    rw [hdata]
    rfl
  have hdrop : ("```json\n" ++ body ++ "\n```").data.drop 7 =
      '\n' :: (body.data ++ '\n' :: '`' :: '`' :: '`' :: []) := by
    rw [hdata]
    rfl
  have hrev : ('\n' :: (body.data ++ '\n' :: '`' :: '`' :: '`' :: [])).reverse =
      '`' :: '`' :: '`' :: '\n' :: (body.data.reverse ++ ['\n']) := by
    simp
  have hend : jsEndsWith
      (String.mk (("```json\n" ++ body ++ "\n```").data.drop 7)) "```" = true := by
    unfold jsEndsWith
    show startsWithL "```".data.reverse
      ((("```json\n" ++ body ++ "\n```").data.drop 7).reverse) = true
    rw [hdrop, hrev]
    rfl
  have hdl : dropLastN (("```json\n" ++ body ++ "\n```").data.drop 7) 3 =
      '\n' :: (body.data ++ ['\n']) := by
    unfold dropLastN
    rw [hdrop, hrev]
    simp
  simp only [stripFences, htrim, hstart, if_true, hend, hdl]
  unfold jsTrim
  show String.mk (trimL ('\n' :: (body.data ++ ['\n']))) = _
  rw [trimL_cons_of_space _ (by decide), trimL_append_space _ (by decide)]



lemma stripFences_plain_wrap (body : String) :
    stripFences ("```\n" ++ body ++ "\n```") = jsTrim body := by
  have hdata : ("```\n" ++ body ++ "\n```").data =
      '`' :: '`' :: '`' :: '\n' ::
        (body.data ++ '\n' :: '`' :: '`' :: '`' :: []) := by
    simp only [String.data_append]
    rfl
  have htrim : jsTrim ("```\n" ++ body ++ "\n```") =
      ("```\n" ++ body ++ "\n```") := by
    unfold jsTrim
    rw [hdata]
    rw [trimL_eq_self]
    · rw [← hdata, String_mk_data]
    · intro c hc
      simp only [List.head?_cons, Option.some.injEq] at hc
      rw [← hc]
      decide
    · intro c hc
      have h2 : ('`' :: '`' :: '`' :: '\n' ::
          (body.data ++ '\n' :: '`' :: '`' :: '`' :: [])) =
          ('`' :: '`' :: '`' :: '\n' ::
            (body.data ++ ['\n', '`', '`'])) ++ ['`'] := by
        simp
      rw [h2, List.getLast?_concat] at hc
      simp only [Option.some.injEq] at hc
      rw [← hc]
      decide
  have hstartJson : jsStartsWith ("```\n" ++ body ++ "\n```") "```json" = false := by
    unfold jsStartsWith
    rw [hdata]
    rfl
  have hstart : jsStartsWith ("```\n" ++ body ++ "\n```") "```" = true := by
    unfold jsStartsWith
    rw [hdata]
    rfl
  have hdrop : ("```\n" ++ body ++ "\n```").data.drop 3 =
      '\n' :: (body.data ++ '\n' :: '`' :: '`' :: '`' :: []) := by
    rw [hdata]
    rfl
  have hrev : ('\n' :: (body.data ++ '\n' :: '`' :: '`' :: '`' :: [])).reverse =
      '`' :: '`' :: '`' :: '\n' :: (body.data.reverse ++ ['\n']) := by
    simp
  have hend : jsEndsWith
      (String.mk (("```\n" ++ body ++ "\n```").data.drop 3)) "```" = true := by
    unfold jsEndsWith
    show startsWithL "```".data.reverse
      ((("```\n" ++ body ++ "\n```").data.drop 3).reverse) = true
    rw [hdrop, hrev]
    rfl
  have hdl : dropLastN (("```\n" ++ body ++ "\n```").data.drop 3) 3 =
      '\n' :: (body.data ++ ['\n']) := by
    unfold dropLastN
    rw [hdrop, hrev]
    simp
  simp only [stripFences, htrim, hstartJson, hstart, if_true, Bool.false_eq_true,
    if_false, hend, hdl]
  unfold jsTrim
  show String.mk (trimL ('\n' :: (body.data ++ ['\n']))) = _
  rw [trimL_cons_of_space _ (by decide), trimL_append_space _ (by decide)]

lemma parseElementList_arr : ∀ (fuel : Nat) (cs : List Char) (acc : List Json)
    (v : Json) (rest : List Char),
    parseElementList fuel cs acc = some (v, rest) → ∃ l, v = Json.arr l := by
  intro fuel
  induction fuel with
  | zero => intro cs acc v rest h; simp [parseElementList] at h
  | succ n ih =>
    intro cs acc v rest h
    rw [parseElementList] at h
    split at h
    · split at h
      · exact ih _ _ _ _ h
      · simp at h
        exact ⟨_, h.1.symm⟩
      · cases h
    · cases h

lemma parseElements_arr (fuel : Nat) (cs : List Char) (v : Json) (rest : List Char)
    (h : parseElements fuel cs = some (v, rest)) : ∃ l, v = Json.arr l := by
  cases fuel with
  | zero => simp [parseElements] at h
  | succ n =>
    rw [parseElements] at h
    split at h
    · simp at h
      exact ⟨_, h.1.symm⟩
    · exact parseElementList_arr _ _ _ _ _ h

lemma parseMemberList_closes : ∀ (fuel : Nat) (cs : List Char) (acc : List (String × Json))
    (v : Json) (rest : List Char),
    parseMemberList fuel cs acc = some (v, rest) → '}' :: rest <:+ cs := by
  intro fuel
  induction fuel with
  | zero => intro cs acc v rest h; simp [parseMemberList] at h
  | succ n ih =>
    intro cs acc v rest h
    rw [parseMemberList] at h
    split at h
    case h_2 => cases h
    case h_1 r1 heq =>
      have h1 : '"' :: r1 <:+ cs := skipJsonWs_cons_suffix heq
      split at h
      case h_2 => cases h
      case h_1 pr key r2 heq2 =>
        have h2 : r2 <:+ r1 := parseStringBody_suffix _ _ _ _ heq2
        split at h
        case h_2 => cases h
        case h_1 r3 heq3 =>
          have h3 : ':' :: r3 <:+ r2 := skipJsonWs_cons_suffix heq3
          split at h
          case h_2 => cases h
          case h_1 pr2 v4 r4 heq4 =>
            have h4 : r4 <:+ r3 := (parsers_suffix n).1 _ _ _ heq4
            have hr4 : r4 <:+ cs :=
              (h4.trans ((List.suffix_cons ':' r3).trans h3)).trans
                (h2.trans ((List.suffix_cons '"' r1).trans h1))
            split at h
            case h_1 r5 heq5 =>
              have h5 : ',' :: r5 <:+ r4 := skipJsonWs_cons_suffix heq5
              exact (ih _ _ _ _ h).trans
                (((List.suffix_cons ',' r5).trans h5).trans hr4)
            case h_2 r5 heq5 =>
              have h5 : '}' :: r5 <:+ r4 := skipJsonWs_cons_suffix heq5
              injection h with h1x
              injection h1x with hv hr
              rw [← hr]
              exact h5.trans hr4
            case h_3 => cases h

lemma parseMembers_closes (fuel : Nat) (cs : List Char) (v : Json) (rest : List Char)
    (h : parseMembers fuel cs = some (v, rest)) : '}' :: rest <:+ cs := by
  cases fuel with
  | zero => simp [parseMembers] at h
  | succ n =>
    rw [parseMembers] at h
    split at h
    case h_1 r heq =>
      injection h with h1x
      injection h1x with hv hr
      rw [← hr]
      exact skipJsonWs_cons_suffix heq
    case h_2 => exact parseMemberList_closes _ _ _ _ _ h



lemma parseValue_obj_decomp (fuel : Nat) (cs : List Char)
    (fs : List (String × Json)) (rest : List Char)
    (h : parseValue fuel cs = some (Json.obj fs, rest)) :
    ∃ ws pre, (∀ c ∈ ws, isJsonWs c = true) ∧
      cs = ws ++ '{' :: pre ++ '}' :: rest := by
  cases fuel with
  | zero => simp [parseValue] at h
  | succ n =>
    rw [parseValue] at h
    split at h
    case h_1 => cases h
    case h_2 c r heq =>
      have hsplit : cs = cs.takeWhile isJsonWs ++ (c :: r) := by
        rw [← heq]
        unfold skipJsonWs
        rw [List.takeWhile_append_dropWhile]
      have hws : ∀ x ∈ cs.takeWhile isJsonWs, isJsonWs x = true :=
        fun x hx => List.mem_takeWhile_imp hx
      split at h
      case isTrue =>
        split at h
        case h_1 pr s r2 heq2 =>
          injection h with h1x
          injection h1x with hv hr
          cases hv
        case h_2 => cases h
      case isFalse =>
        split at h
        case isTrue hc =>
          obtain ⟨pre, hpre⟩ := parseMembers_closes n r (Json.obj fs) rest h
          refine ⟨cs.takeWhile isJsonWs, pre, hws, ?_⟩
          conv_lhs => rw [hsplit]
          rw [hc, ← hpre]
          simp
        case isFalse =>
          split at h
          case isTrue =>
            obtain ⟨l, hl⟩ := parseElements_arr n r (Json.obj fs) rest h
            cases hl
          case isFalse =>
            split at h
            case isTrue =>
              split at h
              case h_1 =>
                injection h with h1x
                injection h1x with hv hr
                cases hv
              case h_2 => cases h
            case isFalse =>
              split at h
              case isTrue =>
                split at h
                case h_1 =>
                  injection h with h1x
                  injection h1x with hv hr
                  cases hv
                case h_2 => cases h
              case isFalse =>
                split at h
                case isTrue =>
                  split at h
                  case h_1 =>
                    injection h with h1x
                    injection h1x with hv hr
                    cases hv
                  case h_2 => cases h
                case isFalse =>
                  split at h
                  case isTrue =>
                    split at h
                    case h_1 =>
                      injection h with h1x
                      injection h1x with hv hr
                      cases hv
                    case h_2 => cases h
                  case isFalse => cases h



lemma isJsonWs_isJsSpace (c : Char) (h : isJsonWs c = true) : isJsSpace c = true := by
  simp only [isJsonWs, Bool.or_eq_true, decide_eq_true_eq] at h
  rcases h with ((h | h) | h) | h <;> simp [isJsSpace, h]

lemma jsonParse_obj_decomp (s : String) (fs : List (String × Json))
    (h : jsonParse s = some (Json.obj fs)) :
    ∃ ws pre rest, (∀ c ∈ ws, isJsonWs c = true) ∧
      (∀ c ∈ rest, isJsonWs c = true) ∧
      s.data = ws ++ '{' :: pre ++ '}' :: rest := by
  unfold jsonParse at h
  split at h
  case h_2 => cases h
  case h_1 pr v rest heq =>
    split at h
    case isFalse => cases h
    case isTrue hws =>
      injection h with hv
      subst hv
      obtain ⟨ws, pre, hwsl, hdata⟩ := parseValue_obj_decomp _ _ _ _ heq
      refine ⟨ws, pre, rest, hwsl, ?_, ?_⟩
      · intro c hc
        have : List.dropWhile isJsonWs rest = [] := hws
        exact List.dropWhile_eq_nil_iff.mp this c hc
      · rw [hdata]

lemma trim_json_obj_bounds (body : String) (fs : List (String × Json))
    (h : jsonParse (jsTrim body) = some (Json.obj fs)) :
    (jsTrim body).data.head? = some '{' ∧
    (jsTrim body).data.getLast? = some '}' := by
  obtain ⟨ws, pre, rest, hws, hrest, hdata⟩ := jsonParse_obj_decomp _ _ h
  have hdtrim : (jsTrim body).data = trimL body.data := rfl
  have hwsnil : ws = [] := by
    cases hw : ws with
    | nil => rfl
    | cons w ws2 =>
      exfalso
      have hhead : (jsTrim body).data.head? = some w := by
        rw [hdata, hw]
        rfl
      have h1 : isJsSpace w = false := by
        rw [hdtrim] at hhead
        exact trimL_head_not_space _ _ hhead
      have h2 : isJsSpace w = true :=
        isJsonWs_isJsSpace w (hws w (by rw [hw]; exact List.mem_cons_self w ws2))
      rw [h1] at h2
      cases h2
  have hrestnil : rest = [] := by
    cases hr : rest with
    | nil => rfl
    | cons r0 rtail =>
      exfalso
      have hne : rest ≠ [] := by rw [hr]; simp
      have hlast : ∃ d, rest.getLast? = some d := by
        rw [hr]
        exact ⟨_, List.getLast?_eq_getLast _ (by simp)⟩
      obtain ⟨d, hd⟩ := hlast
      have hdm : d ∈ rest := by
        rw [hr] at hd ⊢
        rw [List.getLast?_eq_getLast _ (by simp)] at hd
        injection hd with hd2
        rw [← hd2]
        exact List.getLast_mem _
      have hglast : (jsTrim body).data.getLast? = some d := by
        rw [hdata, hwsnil]
        simp only [List.nil_append]
        rw [List.getLast?_append, hr, List.getLast?_cons_cons, ← hr, hd]
        rfl
      have h1 : isJsSpace d = false := by
        rw [hdtrim] at hglast
        exact trimL_last_not_space _ _ hglast
      have h2 : isJsSpace d = true := isJsonWs_isJsSpace d (hrest d hdm)
      rw [h1] at h2
      cases h2
  constructor
  · rw [hdata, hwsnil]
    rfl
  · rw [hdata, hwsnil, hrestnil]
    simp only [List.nil_append]
    have : '{' :: pre ++ '}' :: [] = ('{' :: pre) ++ ['}'] := by simp
    rw [this, List.getLast?_concat]

/-! ### Claim C6 (confirmed) -/

lemma infix_data_middle (x a b : String) : x.data <:+: (a ++ (x ++ b)).data :=
  ⟨a.data, b.data, by simp [String.data_append]⟩

lemma compositeErrorMessage_parts (p f : LLMProvider) (e1 e2 : String) :
    (providerName p).data <:+: (compositeErrorMessage p f e1 e2).data ∧
    (providerName f).data <:+: (compositeErrorMessage p f e1 e2).data ∧
    e1.data <:+: (compositeErrorMessage p f e1 e2).data ∧
    e2.data <:+: (compositeErrorMessage p f e1 e2).data := by
  refine ⟨⟨"Failed to generate SQL. Primary (".data,
            ("): " ++ e1 ++ ". Fallback (" ++ providerName f ++ "): " ++ e2).data, ?_⟩,
          ⟨("Failed to generate SQL. Primary (" ++ providerName p ++ "): " ++ e1 ++
              ". Fallback (").data,
            ("): " ++ e2).data, ?_⟩,
          ⟨("Failed to generate SQL. Primary (" ++ providerName p ++ "): ").data,
            (". Fallback (" ++ providerName f ++ "): " ++ e2).data, ?_⟩,
          ⟨("Failed to generate SQL. Primary (" ++ providerName p ++ "): " ++ e1 ++
              ". Fallback (" ++ providerName f ++ "): ").data, [], ?_⟩⟩ <;>
    simp [compositeErrorMessage, String.data_append, List.append_assoc]

/-- Claim C6: the primary provider (explicit preference, else the
configured default, else gemini) is invoked first; on success its
response is returned and the fallback is never invoked; on failure the
other provider is invoked exactly once; if both fail, `generateSQL`
fails with a single aggregated error whose message contains both
provider identifiers and both original error messages. -/
theorem generateSQL_orchestration {R : Type} (geminiCall claudeCall : Except String R)
    (envProvider preferredProvider : Option LLMProvider)
    (primary fallback : LLMProvider)
    (hp : primary = preferredProvider.getD (envProvider.getD .gemini))
    (hf : fallback = fallbackOf primary) :
    (∀ r, (if primary = LLMProvider.gemini then geminiCall else claudeCall) = .ok r →
      generateSQL geminiCall claudeCall envProvider preferredProvider = (.ok r, [primary]))
    ∧ (∀ e1 r, (if primary = LLMProvider.gemini then geminiCall else claudeCall) = .error e1 →
        (if fallback = LLMProvider.gemini then geminiCall else claudeCall) = .ok r →
        generateSQL geminiCall claudeCall envProvider preferredProvider =
          (.ok r, [primary, fallback]))
    ∧ (∀ e1 e2, (if primary = LLMProvider.gemini then geminiCall else claudeCall) = .error e1 →
        (if fallback = LLMProvider.gemini then geminiCall else claudeCall) = .error e2 →
        generateSQL geminiCall claudeCall envProvider preferredProvider =
          (.error (compositeErrorMessage primary fallback e1 e2), [primary, fallback]) ∧
        (providerName primary).data <:+: (compositeErrorMessage primary fallback e1 e2).data ∧
        (providerName fallback).data <:+: (compositeErrorMessage primary fallback e1 e2).data ∧
        e1.data <:+: (compositeErrorMessage primary fallback e1 e2).data ∧
        e2.data <:+: (compositeErrorMessage primary fallback e1 e2).data) := by
  subst hp hf
  refine ⟨?_, ?_, ?_⟩
  · intro r h
    simp only [generateSQL]
    rw [h]
  · intro e1 r h1 h2
    simp only [generateSQL]
    rw [h1, h2]
  · intro e1 e2 h1 h2
    refine ⟨?_, compositeErrorMessage_parts _ _ e1 e2⟩
    simp only [generateSQL]
    rw [h1, h2]

/-- Witness for claim C6: with both providers failing and gemini
preferred, the orchestrator invokes gemini then claude and aggregates
both errors. -/
theorem generateSQL_orchestration_witness :
    generateSQL (Except.error "gemini boom" : Except String Unit) (.error "claude boom")
        none (some .gemini) =
      (.error (compositeErrorMessage .gemini .claude "gemini boom" "claude boom"),
        [.gemini, .claude]) :=
  ((generateSQL_orchestration (Except.error "gemini boom" : Except String Unit)
      (.error "claude boom") none (some .gemini)
      .gemini .claude rfl rfl).2.2 "gemini boom" "claude boom" rfl rfl).1

/-! ### Claim C9 (confirmed) -/

/-- Claim C9: the built prompt places the schema text first; the
previous-queries block appears only for a non-empty history and
contains exactly the last three pairs (all pairs when fewer), in
original chronological order, each as a two-line `User:`/`SQL:` pair;
then the user question and the fixed closing instruction.  With five
prior pairs only the last three appear; with an absent or empty
history the block is omitted entirely. -/
theorem buildUserPrompt_layout :
    (∀ (q schema : String) (p1 p2 p3 p4 p5 : String × String),
      buildUserPrompt q schema (some [p1, p2, p3, p4, p5]) =
        schema ++ "\n\n" ++ "PREVIOUS QUERIES FOR CONTEXT:\n" ++
          ("User: " ++ p3.1 ++ "\nSQL: " ++ p3.2 ++ "\n\n") ++
          ("User: " ++ p4.1 ++ "\nSQL: " ++ p4.2 ++ "\n\n") ++
          ("User: " ++ p5.1 ++ "\nSQL: " ++ p5.2 ++ "\n\n") ++
          "USER QUESTION: " ++ q ++ "\n\n" ++ "Generate the SQL query:")
    ∧ (∀ (q schema : String) (p1 p2 : String × String),
      buildUserPrompt q schema (some [p1, p2]) =
        schema ++ "\n\n" ++ "PREVIOUS QUERIES FOR CONTEXT:\n" ++
          ("User: " ++ p1.1 ++ "\nSQL: " ++ p1.2 ++ "\n\n") ++
          ("User: " ++ p2.1 ++ "\nSQL: " ++ p2.2 ++ "\n\n") ++
          "USER QUESTION: " ++ q ++ "\n\n" ++ "Generate the SQL query:")
    ∧ (∀ (q schema : String),
      buildUserPrompt q schema none =
        schema ++ "\n\n" ++ "USER QUESTION: " ++ q ++ "\n\n" ++
          "Generate the SQL query:")
    ∧ (∀ (q schema : String),
      buildUserPrompt q schema (some []) =
        schema ++ "\n\n" ++ "USER QUESTION: " ++ q ++ "\n\n" ++
          "Generate the SQL query:") := by
  refine ⟨?_, ?_, ?_, ?_⟩ <;>
    · intros
      apply String.ext
      simp [buildUserPrompt, renderPreviousQuery, String.data_append,
        List.append_assoc]

/-! ### Claim C10 (confirmed) -/

/-- Claim C10: with a populated cache and `forceRefresh` false,
`introspectSchema` returns the cached schema unchanged and issues no
catalog queries; consequently the second of two consecutive calls
without `forceRefresh` returns the same schema as the first and
performs no introspection I/O. -/
theorem introspectSchema_cache_hit :
    (∀ (db : CatalogDb) (s : DatabaseSchema),
      introspectSchema db false (some s) =
        { schema := s, cache := some s, catalogQueries := 0 })
    ∧ (∀ (db : CatalogDb) (c : Option DatabaseSchema),
      (introspectSchema db false
        (introspectSchema db false c).cache).schema =
          (introspectSchema db false c).schema ∧
      (introspectSchema db false
        (introspectSchema db false c).cache).catalogQueries = 0) := by
  constructor
  · intro db s
    simp [introspectSchema]
  · intro db c
    cases c with
    | none => simp [introspectSchema]
    | some s => simp [introspectSchema]

/-! ### Claim C7 (confirmed) -/

lemma confidenceOf_mem (v : Option Json) :
    confidenceOf v ∈ (["high", "medium", "low"] : List String) := by
  unfold confidenceOf
  rcases v with - | j
  · simp
  · rcases j with - | b | r | s | l | f
    · simp
    · simp
    · simp
    · rcases eq_or_ne s "high" with rfl | h1
      · simp
      · rcases eq_or_ne s "medium" with rfl | h2
        · simp
        · rcases eq_or_ne s "low" with rfl | h3
          · simp
          · simp [h1, h2, h3]
    · simp
    · simp

lemma fallbackExtract_confidence (r : String) :
    (fallbackExtract r).confidence = "low" := by
  unfold fallbackExtract
  cases selectScan r.data <;> rfl

/-- Claim C7: `parseLLMResponse` is total and always yields a
confidence in \x7bhigh, medium, low\x7d; the exact JSON round-trip holds; an
unknown confidence is coerced to `medium`; a missing `sql` yields the
empty string and a missing `explanation` the fixed placeholder; when
JSON parsing fails, the `SELECT …`-to-semicolon (or end) substring —
or, absent one, the whole raw text — is returned with confidence
`low`. -/
theorem parseLLMResponse_best_effort :
    (∀ s : String,
      (parseLLMResponse s).confidence ∈ (["high", "medium", "low"] : List String))
    ∧ parseLLMResponse "\x7b\"sql\":\"SELECT 1\",\"explanation\":\"x\",\"confidence\":\"high\"\x7d" =
        { sql := .str "SELECT 1", explanation := .str "x", confidence := "high" }
    ∧ parseLLMResponse "\x7b\"sql\":\"SELECT 1\",\"explanation\":\"x\",\"confidence\":\"maybe\"\x7d" =
        { sql := .str "SELECT 1", explanation := .str "x", confidence := "medium" }
    ∧ parseLLMResponse "\x7b\"explanation\":\"x\",\"confidence\":\"high\"\x7d" =
        { sql := .str "", explanation := .str "x", confidence := "high" }
    ∧ parseLLMResponse "\x7b\"sql\":\"SELECT 1\",\"confidence\":\"high\"\x7d" =
        { sql := .str "SELECT 1", explanation := .str "No explanation provided",
          confidence := "high" }
    ∧ parseLLMResponse "Here you go: SELECT * FROM t; enjoy" =
        { sql := .str "SELECT * FROM t;",
          explanation := .str "Extracted SQL from response", confidence := "low" }
    ∧ parseLLMResponse "no query here" =
        { sql := .str "no query here",
          explanation := .str "Extracted SQL from response", confidence := "low" } := by
  refine ⟨?_, rfl, rfl, rfl, rfl, rfl, rfl⟩
  intro s
  unfold parseLLMResponse
  rcases h : jsonParse (stripFences s) with - | v
  · simp [fallbackExtract_confidence]
  · rcases v with - | b | r | t | l | f
    · simp [fallbackExtract_confidence]
    all_goals
      show (extractFromParsed _).confidence ∈ (["high", "medium", "low"] : List String)
      dsimp only [extractFromParsed]
      exact confidenceOf_mem _

/-! ### Claim C8 (corrected) -/

lemma stripFences_id_of_obj (body : String) (fs : List (String × Json))
    (h : jsonParse (jsTrim body) = some (Json.obj fs)) :
    stripFences body = jsTrim body := by
  obtain ⟨hhead, hlast⟩ := trim_json_obj_bounds body fs h
  have hsj : jsStartsWith (jsTrim body) "```json" = false := by
    cases hb : jsStartsWith (jsTrim body) "```json" with
    | false => rfl
    | true =>
      have h2 := jsStartsWith_head "```json" '`' hb rfl
      rw [hhead] at h2
      exact absurd (Option.some.inj h2) (by decide)
  have hs3 : jsStartsWith (jsTrim body) "```" = false := by
    cases hb : jsStartsWith (jsTrim body) "```" with
    | false => rfl
    | true =>
      have h2 := jsStartsWith_head "```" '`' hb rfl
      rw [hhead] at h2
      exact absurd (Option.some.inj h2) (by decide)
  have hend : jsEndsWith (jsTrim body) "```" = false := by
    cases hb : jsEndsWith (jsTrim body) "```" with
    | false => rfl
    | true =>
      unfold jsEndsWith at hb
      have h2 : ((jsTrim body).data.reverse).head? = some '`' := by
        have h3 : "```".data.reverse = '`' :: '`' :: '`' :: [] := rfl
        rw [h3] at hb
        exact startsWithL_head hb
      rw [List.head?_reverse, hlast] at h2
      exact absurd (Option.some.inj h2) (by decide)
  simp only [stripFences, hsj, hs3, hend, Bool.false_eq_true, if_false]
  show jsTrim (jsTrim body) = jsTrim body
  unfold jsTrim
  show String.mk (trimL (trimL body.data)) = _
  rw [trimL_idem]

/-- Claim C8, as stated, is false for language tags other than `json`:
the code strips only a ```` ```json ```` or bare ```` ``` ```` opening
fence, so wrapping a JSON body in a ```` ```sql ```` fence leaves the
tag text in front of the JSON, the parse fails, and the fallback path
produces a different (low-confidence) result than the bare body. -/
theorem parseLLMResponse_fence_tag_cex :
    (parseLLMResponse
        ("```sql\n" ++ "\x7b\"sql\":\"SELECT 1\",\"explanation\":\"x\",\"confidence\":\"high\"\x7d" ++ "\n```")).confidence
      = "low" ∧
    (parseLLMResponse "\x7b\"sql\":\"SELECT 1\",\"explanation\":\"x\",\"confidence\":\"high\"\x7d").confidence
      = "high" ∧
    parseLLMResponse
        ("```sql\n" ++ "\x7b\"sql\":\"SELECT 1\",\"explanation\":\"x\",\"confidence\":\"high\"\x7d" ++ "\n```") ≠
      parseLLMResponse "\x7b\"sql\":\"SELECT 1\",\"explanation\":\"x\",\"confidence\":\"high\"\x7d" := by
  refine ⟨rfl, rfl, fun hcontra => ?_⟩
  exact absurd (congrArg LLMParsed.confidence hcontra) (by decide)

/-- Claim C8 (amended): for every response body whose trimmed text
parses as a single JSON object, wrapping the body in triple-backtick
fence markers with the `json` language tag, or with no tag, yields
exactly the same parsed triple as the bare body.  (Other language tags
are not stripped; see the counterexample.) -/
theorem parseLLMResponse_fence_strip (body : String) (fs : List (String × Json))
    (h : jsonParse (jsTrim body) = some (Json.obj fs)) :
    parseLLMResponse ("```json\n" ++ body ++ "\n```") = parseLLMResponse body ∧
    parseLLMResponse ("```\n" ++ body ++ "\n```") = parseLLMResponse body := by
  have hbare : stripFences body = jsTrim body := stripFences_id_of_obj _ _ h
  constructor
  · unfold parseLLMResponse
    rw [stripFences_json_wrap, hbare, h]
  · unfold parseLLMResponse
    rw [stripFences_plain_wrap, hbare, h]

/-- Witness for the amended claim C8 at the spec's round-trip JSON
object. -/
theorem parseLLMResponse_fence_strip_witness :
    jsonParse (jsTrim "\x7b\"sql\":\"SELECT 1\",\"explanation\":\"x\",\"confidence\":\"high\"\x7d") =
      some (Json.obj [("sql", Json.str "SELECT 1"), ("explanation", Json.str "x"),
        ("confidence", Json.str "high")]) ∧
    parseLLMResponse
        ("```json\n" ++ "\x7b\"sql\":\"SELECT 1\",\"explanation\":\"x\",\"confidence\":\"high\"\x7d" ++ "\n```") =
      parseLLMResponse "\x7b\"sql\":\"SELECT 1\",\"explanation\":\"x\",\"confidence\":\"high\"\x7d" :=
  ⟨rfl,
    (parseLLMResponse_fence_strip "\x7b\"sql\":\"SELECT 1\",\"explanation\":\"x\",\"confidence\":\"high\"\x7d"
      [("sql", Json.str "SELECT 1"), ("explanation", Json.str "x"),
        ("confidence", Json.str "high")] rfl).1⟩

end NlpPostgres
